import Mathlib

/-!
Shallow embedding of the text-generation core of the TELEGRAM_BOT repository.

The embedding covers `src/utils/message_filters.py` and
`src/utils/text_generator.py`.  Python strings are Lean `String`s
(lists of unicode characters); Python's `re` character classes are embedded as
boolean character predicates covering ASCII and the Cyrillic block actually
used by the program; `random.choice` is embedded by threading an explicit
stream of indices (`List Nat`); `random.random() < p` draws are explicit
`Bool` parameters; the markovify library model is an oracle structure; and the
unbounded `while` loop of the custom generator is embedded with explicit fuel,
returning `none` when the modelled run needs more steps than the fuel allows.
-/

namespace TgBot

/-- Character lies in the ASCII lowercase range a-z. -/
def isAsciiLower (c : Char) : Bool := 97 ≤ c.toNat && c.toNat ≤ 122

/-- Character lies in the ASCII uppercase range A-Z. -/
def isAsciiUpper (c : Char) : Bool := 65 ≤ c.toNat && c.toNat ≤ 90

/-- Character is an ASCII digit 0-9. -/
def isAsciiDigit (c : Char) : Bool := 48 ≤ c.toNat && c.toNat ≤ 57

/-- Character is a Cyrillic letter (А-я plus Ё/ё), the non-ASCII alphabet the
program's corpus uses. -/
def isCyrillicChar (c : Char) : Bool :=
  (0x410 ≤ c.toNat && c.toNat ≤ 0x44F) || c.toNat = 0x401 || c.toNat = 0x451

/-- Embedding of Python `str.isalpha` at the character level (over the scripts
the program uses: ASCII letters and Cyrillic). -/
def pyIsAlphaChar (c : Char) : Bool := isAsciiLower c || isAsciiUpper c || isCyrillicChar c

/-- Embedding of the regex class `\w` (word character): letters, digits and
underscore. -/
def isWordChar (c : Char) : Bool := pyIsAlphaChar c || isAsciiDigit c || c = '_'

/-- Embedding of the regex class `\s` / Python whitespace (ASCII whitespace
characters). -/
def isWsChar (c : Char) : Bool :=
  c.toNat = 32 || c.toNat = 9 || c.toNat = 10 || c.toNat = 13 || c.toNat = 11 || c.toNat = 12

/-- Embedding of Python `str.upper` at the character level (ASCII and
Cyrillic; other characters are left unchanged). -/
def pyUpperChar (c : Char) : Char :=
  if 97 ≤ c.toNat ∧ c.toNat ≤ 122 then Char.ofNat (c.toNat - 32)
  else if 0x430 ≤ c.toNat ∧ c.toNat ≤ 0x44F then Char.ofNat (c.toNat - 32)
  else if c.toNat = 0x451 then Char.ofNat 0x401
  else c

/-- Embedding of Python `str.lower` at the character level (ASCII and
Cyrillic; other characters are left unchanged). -/
def pyLowerChar (c : Char) : Char :=
  if 65 ≤ c.toNat ∧ c.toNat ≤ 90 then Char.ofNat (c.toNat + 32)
  else if 0x410 ≤ c.toNat ∧ c.toNat ≤ 0x42F then Char.ofNat (c.toNat + 32)
  else if c.toNat = 0x401 then Char.ofNat 0x451
  else c

/-- Embedding of Python `str.lower` on whole strings. -/
def pyLower (s : String) : String := ⟨s.data.map pyLowerChar⟩

/-- Accumulator-style whitespace splitter: embedding of Python `str.split()`
(split on runs of whitespace, dropping empty pieces). -/
def splitWsAux : List Char → List Char → List (List Char)
  | [], acc => if acc = [] then [] else [acc.reverse]
  | c :: rest, acc =>
    if isWsChar c then
      if acc = [] then splitWsAux rest [] else acc.reverse :: splitWsAux rest []
    else splitWsAux rest (c :: acc)

/-- Embedding of Python `str.split()` with no argument. -/
def pySplit (s : String) : List String := (splitWsAux s.data []).map String.mk

/-- Embedding of Python `str.strip()` with no argument. -/
def pyStrip (s : String) : String :=
  ⟨((s.data.dropWhile isWsChar).reverse.dropWhile isWsChar).reverse⟩

/-!
Message filter: embedding of `src/utils/message_filters.py`.

The URL regex in `contains_link` is an alternation of three branches:
schemed URLs, `www.`-prefixed hosts, and bare domain-like tokens
`(?:[a-zA-Z0-9](?:[a-zA-Z0-9-]{0,61}[a-zA-Z0-9])?\.)+[a-zA-Z]{2,6}`.
`re.search` is embedded as the existence of a suffix position where one of the
branches matches; for a boolean result this is equivalent.
-/

/-- Character class appearing in the schemed-URL and `www.` branches of the
link regex: `[a-zA-Z]|[0-9]|[$-_@.&+]|[!*\\(\\),]` (note `$-_` is the ASCII
range 0x24-0x5F). -/
def urlUnitChar (c : Char) : Bool :=
  isAsciiLower c || isAsciiUpper c || isAsciiDigit c ||
  (0x24 ≤ c.toNat && c.toNat ≤ 0x5F) ||
  c = '!' || c = '*' || c = '\\' || c = '(' || c = ')' || c = ','

/-- Hexadecimal digit, for the `%[0-9a-fA-F][0-9a-fA-F]` escape branch. -/
def isHexChar (c : Char) : Bool :=
  isAsciiDigit c || (97 ≤ c.toNat && c.toNat ≤ 102) || (65 ≤ c.toNat && c.toNat ≤ 70)

/-- Two consecutive hexadecimal digits start the list. -/
def twoHexAt : List Char → Bool
  | a :: b :: _ => isHexChar a && isHexChar b
  | _ => false

/-- The one-or-more unit group of the URL regex matches at least once at the
head of the list (a class character, or a percent escape). -/
def urlUnitsAt : List Char → Bool
  | [] => false
  | c :: rest => urlUnitChar c || (c = '%' && twoHexAt rest)

/-- ASCII alphanumeric character, class `[a-zA-Z0-9]` of the domain branch. -/
def isAlnumAscii (c : Char) : Bool := isAsciiLower c || isAsciiUpper c || isAsciiDigit c

/-- Interior character of a domain label, class `[a-zA-Z0-9-]`. -/
def isLabelChar (c : Char) : Bool := isAlnumAscii c || c = '-'

/-- A list of characters is a complete domain label
`[a-zA-Z0-9](?:[a-zA-Z0-9-]{0,61}[a-zA-Z0-9])?`: alphanumeric first and last
character, alphanumeric-or-hyphen interior, total length at most 63. -/
def validLabel : List Char → Bool
  | [] => false
  | [c] => isAlnumAscii c
  | c :: rest =>
    isAlnumAscii c &&
      (match rest.getLast? with | some d => isAlnumAscii d | none => false) &&
      rest.dropLast.all isLabelChar && rest.length ≤ 62

/-- Two ASCII letters start the list: the `[a-zA-Z]{2,6}` tail of the domain
branch can match (for existence, two letters suffice). -/
def twoAlphaAt : List Char → Bool
  | a :: b :: _ => (isAsciiLower a || isAsciiUpper a) && (isAsciiLower b || isAsciiUpper b)
  | _ => false

/-- The domain branch `(?:label\.)+[a-zA-Z]{2,6}` matches starting at the head
of the list: one or more label-dot groups followed by at least two letters.
Fuel bounds the number of groups; the list length always suffices. -/
def domainAt : Nat → List Char → Bool
  | 0, _ => false
  | fuel + 1, l =>
    (List.range 63).any fun j =>
      validLabel (l.take (j + 1)) && (l.get? (j + 1) == some '.') &&
        (twoAlphaAt (l.drop (j + 2)) || domainAt fuel (l.drop (j + 2)))

/-- One of the three branches of the URL regex matches at the head. -/
def linkAt (l : List Char) : Bool :=
  ("http://".data.isPrefixOf l && urlUnitsAt (l.drop 7)) ||
  ("https://".data.isPrefixOf l && urlUnitsAt (l.drop 8)) ||
  ("www.".data.isPrefixOf l && urlUnitsAt (l.drop 4)) ||
  domainAt l.length l

/-- Some suffix of the list satisfies the predicate (embedding of
`re.search` for a boolean result). -/
def anySuffix (p : List Char → Bool) : List Char → Bool
  | [] => p []
  | c :: rest => p (c :: rest) || anySuffix p rest

/-- Embedding of `contains_link`. -/
def contains_link (text : String) : Bool := anySuffix linkAt text.data

/-- The mention regex `@\w+` matches at the head of the list. -/
def mentionAt : List Char → Bool
  | '@' :: c :: _ => isWordChar c
  | _ => false

/-- Embedding of `contains_mentions`. -/
def contains_mentions (text : String) : Bool := anySuffix mentionAt text.data

/-- Characters NOT rejected by `contains_special_characters`, i.e. the class
`[\w\s.,!?\'\"«»()-:;]` — note that `)-:` is the ASCII range 0x29-0x3A. -/
def allowedMsgChar (c : Char) : Bool :=
  isWordChar c || isWsChar c || c = '.' || c = ',' || c = '!' || c = '?' ||
  c = '\'' || c = '"' || c = '«' || c = '»' || c = '(' ||
  (0x29 ≤ c.toNat && c.toNat ≤ 0x3A) || c = ';'

/-- Embedding of `contains_special_characters`. -/
def contains_special_characters (text : String) : Bool :=
  text.data.any (fun c => !allowedMsgChar c)

/-- Embedding of `contains_profanity` (a stub that always returns False). -/
def contains_profanity (_text : String) : Bool := false

/-- Embedding of Python `text.startswith('/')`. -/
def startsWithSlash (text : String) : Bool :=
  match text.data with
  | c :: _ => c = '/'
  | [] => false

/-- Embedding of `is_message_valid`; `none` models Python `None`. -/
def is_message_valid : Option String → Bool
  | none => false
  | some text =>
    if text.data.length < 3 then false
    else if contains_link text then false
    else if contains_mentions text then false
    else if contains_special_characters text then false
    else if startsWithSlash text then false
    else true

/-!
Tokenizer and transition table: embedding of `tokenize_text` and of the
transition-table build in `update_markov_model`
(`src/utils/text_generator.py`).
-/

/-- Characters kept by `re.sub(r'[^\w\s.,!?]', '', ...)` in `tokenize_text`. -/
def isTokKeepChar (c : Char) : Bool :=
  isWordChar c || isWsChar c || c = '.' || c = ',' || c = '!' || c = '?'

/-- One of the four punctuation characters that are first-class tokens. -/
def isPunctTok (c : Char) : Bool := c = '.' || c = ',' || c = '!' || c = '?'

/-- Scanner for `re.findall(r'\w+|[.,!?]', ...)` over a list that contains only
kept characters: maximal word-character runs become tokens, each punctuation
mark is its own token, whitespace separates. -/
def tokensAux : List Char → List Char → List String
  | [], acc => if acc = [] then [] else [⟨acc.reverse⟩]
  | c :: rest, acc =>
    if isWordChar c then tokensAux rest (c :: acc)
    else
      (if acc = [] then ([] : List String) else [⟨acc.reverse⟩]) ++
        (if isPunctTok c then (⟨[c]⟩ : String) :: tokensAux rest [] else tokensAux rest [])

/-- Embedding of `tokenize_text`: lower-case, strip characters outside
`[\w\s.,!?]`, then split into word runs and single punctuation marks. -/
def tokenize_text (text : String) : List String :=
  tokensAux ((pyLower text).data.filter isTokKeepChar) []

/-- The transition table: insertion-ordered association list from a token to
the list of its observed successors (embedding of the `defaultdict(list)`). -/
abbrev Table := List (String × List String)

/-- Embedding of `d[k].append(v)` on the `defaultdict(list)`: append to the
existing bucket, or create a singleton bucket for a new key. -/
def tableAppend : Table → String → String → Table
  | [], k, v => [(k, [v])]
  | (k', vs) :: rest, k, v =>
    if k' = k then (k', vs ++ [v]) :: rest else (k', vs) :: tableAppend rest k v

/-- Pure lookup (embedding of `k in d` / reading an existing entry). -/
def tget : Table → String → Option (List String)
  | [], _ => none
  | (k', vs) :: rest, k => if k' = k then some vs else tget rest k

/-- The successor bucket of a key (empty for missing keys). -/
def bucketOf (t : Table) (k : String) : List String := (tget t k).getD []

/-- Embedding of `defaultdict.__getitem__`: returns the bucket, inserting an
empty bucket for a missing key (the mutation Python performs silently). -/
def dictGet (t : Table) (k : String) : List String × Table :=
  match tget t k with
  | some vs => (vs, t)
  | none => ([], t ++ [(k, [])])

/-- The pair loop `for i in range(len(tokens)-1): d[tokens[i]].append(tokens[i+1])`. -/
def addPairs : Table → List String → Table
  | t, a :: b :: rest => addPairs (tableAppend t a b) (b :: rest)
  | t, _ => t

/-- Processing of one corpus message in the transition-table build: tokenize,
skip messages with fewer than two tokens, otherwise add all adjacent pairs. -/
def addMessage (t : Table) (msg : String) : Table :=
  let tokens := tokenize_text msg
  if tokens.length < 2 then t else addPairs t tokens

/-- The transition-table build over the full corpus (the `temp_model` loop of
`update_markov_model`). -/
def buildTable (messages : List String) : Table := messages.foldl addMessage []

/-!
Model update: embedding of `update_markov_model`.

The markovify library is opaque: a built model is a structure whose only
capability is `make_sentence`, fed one value drawn from the random stream per
attempt; `markovify.Text(...)` is an oracle `String → Except Unit NgramModel`
that may fail.  The database read is an oracle `Except Unit (List String)`.
The returned `Bool` is true exactly when the semaphore permit was released
(the `finally` block; the not-acquired timeout path never releases).
-/

/-- Opaque markovify model: can be asked for one sentence per attempt. -/
structure NgramModel where
  make_sentence : Nat → Option String

/-- The pair of module-level globals `(markov_model, markovify_model)`. -/
structure LiveModel where
  markov_model : Table
  markovify_model : Option NgramModel

/-- Last character of the string is `.`, `!` or `?`
(Python `text[-1] in ['.', '!', '?']` on a non-empty string). -/
def endsInTerminalChar (s : String) : Bool :=
  match s.data.getLast? with
  | some c => c = '.' || c = '!' || c = '?'
  | none => false

/-- Per-message preprocessing for markovify: strip, then append a final `.`
when the text is non-empty and does not already end in terminal punctuation. -/
def processMessage (msg : String) : String :=
  let text := pyStrip msg
  if text.data.isEmpty then text
  else if endsInTerminalChar text then text
  else text ++ "."

/-- The `processed_messages` loop: keep processed texts with at least three
whitespace-words. -/
def processed_messages (messages : List String) : List String :=
  messages.foldl
    (fun acc msg =>
      let text := processMessage msg
      if 3 ≤ (pySplit text).length then acc ++ [text] else acc)
    []

/-- Join with newline separators (`"\n".join(...)`). -/
def joinNl : List String → String
  | [] => ""
  | [s] => s
  | s :: rest => s ++ "\n" ++ joinNl rest

/-- Embedding of `update_markov_model`.  `acquired` is whether the timed
semaphore acquire succeeded; `corpus` is the database read; `buildNg` is the
markovify constructor.  Returns the new global state and whether the permit
was released. -/
def update_markov_model (st : LiveModel) (acquired : Bool)
    (corpus : Except Unit (List String)) (buildNg : String → Except Unit NgramModel) :
    LiveModel × Bool :=
  if acquired = false then (st, false)
  else
    match corpus with
    | .error _ => (st, true)
    | .ok messages =>
      if messages = [] then (st, true)
      else
        let temp_model := buildTable messages
        let processed := processed_messages messages
        if processed = [] then ({ markov_model := temp_model, markovify_model := none }, true)
        else
          match buildNg (joinNl processed) with
          | .ok m => ({ markov_model := temp_model, markovify_model := some m }, true)
          | .error _ => (st, true)

/-!
Sentence generation: embedding of `generate_sentence_custom`,
`generate_sentence_markovify` and `generate_sentence`.
-/

/-- The module-level list of forbidden sentence endings (copied verbatim,
including the duplicated entry). -/
def forbidden_endings : List String :=
  ["и", "или", "но", "а", "да", "либо", "зато", "однако", "хотя", "что", "чтобы",
   "если", "пока", "когда",
   "в", "на", "под", "над", "за", "перед", "через", "к", "от", "из", "с", "у", "о",
   "об", "про", "по", "до",
   "же", "бы", "ли", "ведь", "вот", "ну", "не", "ни", "даже", "лишь", "только", "аж",
   "ой", "ах", "ой", "эх", "увы", "ух", "ура",
   "это", "как", "так", "где", "куда", "откуда", "который", "которая", "которое",
   "которые",
   "чей", "чья", "чьё", "чьи", "какой", "какая", "какое", "какие", "мой", "твой",
   "его", "её", "наш", "ваш", "их"]

/-- The built-in pool of fallback sentences of `generate_sentence_custom`. -/
def base_sentences : List String :=
  ["Интересный факт о том, что в мире много интересного.",
   "Знаете ли вы, что каждый день происходит что-то новое.",
   "Мысли о будущем всегда вызывают разные эмоции у людей.",
   "В прошлом веке технологии развивались стремительно.",
   "Путешествие в горы дарит незабываемые впечатления.",
   "Современная литература предлагает много интересных идей.",
   "История человечества полна удивительных открытий.",
   "Наука не стоит на месте и постоянно развивается."]

/-- Fixed reply when the transition table is empty. -/
def no_data_sentence : String := "У меня еще нет данных для генерации текста."

/-- Fixed fallback of the `except` handler in `generate_sentence_custom`. -/
def custom_error_sentence : String :=
  "Интересно, что природа всегда находит способ удивить нас своей красотой."

/-- Fixed fallback of the `except` handler in `generate_sentence`. -/
def dispatcher_error_sentence : String :=
  "Произошла ошибка при генерации текста. Пожалуйста, попробуйте ещё раз."

/-- Embedding of `capitalize_first_letter`: upper-case the first character
only. -/
def capitalize_first_letter (text : String) : String :=
  match text.data with
  | [] => text
  | c :: rest => ⟨pyUpperChar c :: rest⟩

/-- Embedding of Python `str.capitalize()`: first character upper-cased, the
rest lower-cased. -/
def pyCapitalize (w : String) : String :=
  match w.data with
  | [] => w
  | c :: rest => ⟨pyUpperChar c :: rest.map pyLowerChar⟩

/-- Embedding of `random.choice`: consume one index from the random stream and
pick modulo the list length (call sites only use non-empty lists). -/
def choice (l : List String) (rng : List Nat) : String × List Nat :=
  (l.getD ((rng.headD 0) % l.length) "", rng.tail)

/-- How the generation `while` loop ended. -/
inductive WalkEnd where
  | deadEnd
  | terminal
  | maxed
deriving DecidableEq

/-- The token is one of the three sentence terminators
(`next_word in ['.', '!', '?']`). -/
def isTerminalTok (w : String) : Bool := w = "." || w = "!" || w = "?"

/-- Embedding of Python `str.isalpha()` on whole strings. -/
def pyStrIsAlpha (w : String) : Bool := !w.data.isEmpty && w.data.all pyIsAlphaChar

/-- The random-walk `while` loop of `generate_sentence_custom`.  One unit of
fuel per iteration; `none` means the modelled run did not finish within the
fuel (the loop may genuinely not terminate, since only alphabetic tokens count
toward `max_words`).  Returns the words, the table as left by the defaultdict
accesses, the final counter, how the loop ended, and the remaining stream. -/
def walkLoop (mn mx : Nat) : Nat → Table → String → List String → Nat → List Nat →
    Option (List String × Table × Nat × WalkEnd × List Nat)
  | fuel, t, current, words, len, rng =>
    if mx ≤ len then some (words, t, len, .maxed, rng)
    else
      match fuel with
      | 0 => none
      | fuel + 1 =>
        match tget t current with
        | none => some (words, t, len, .deadEnd, rng)
        | some _ =>
          let (b1, t1) := dictGet t current
          if b1 = [] then some (words, t1, len, .deadEnd, rng)
          else
            let (b2, t2) := dictGet t1 current
            let (next, rng') := choice b2 rng
            let words' := words ++ [next]
            let len' := if pyStrIsAlpha next then len + 1 else len
            if isTerminalTok next ∧ mn ≤ len' then some (words', t2, len', .terminal, rng')
            else walkLoop mn mx fuel t2 next words' len' rng'

/-- Filter for admissible starting words: non-empty, first character
alphabetic, not a forbidden ending. -/
def startWordOk (w : String) : Bool :=
  !w.data.isEmpty && pyIsAlphaChar (w.data.headD ' ') && !(forbidden_endings.contains w)

/-- Replace every occurrence of the two-character pattern `[a, b]` by the
single character `b` (used with a space and a punctuation mark, embedding
`str.replace(' X', 'X')`). -/
def replace2 (a b : Char) : List Char → List Char
  | [] => []
  | [x] => [x]
  | x :: y :: rest =>
    if x = a ∧ y = b then b :: replace2 a b rest
    else x :: replace2 a b (y :: rest)

/-- The four sequential punctuation-spacing replacements of
`generate_sentence_custom`, in source order. -/
def fixPunct (s : String) : String :=
  ⟨replace2 ' ' '?' (replace2 ' ' '!' (replace2 ' ' '.' (replace2 ' ' ',' s.data)))⟩

/-- Join words with single spaces (`' '.join(words)`). -/
def joinWords : List String → String
  | [] => ""
  | [w] => w
  | w :: rest => w ++ " " ++ joinWords rest

/-- Result of one `generate_sentence_custom` run: the sentence, the transition
table as left by the run, the walk's final counter and end reason when the
sentence came from the random walk (`none` on the fallback paths), and the
remaining random stream. -/
structure CustomResult where
  sentence : String
  table : Table
  walkInfo : Option (Nat × WalkEnd)
  rng : List Nat
deriving DecidableEq

/-- Embedding of `generate_sentence_custom`.  `exc` models an exception being
raised inside the `try` body (the `except` handler returns the fixed fallback
sentence); `fuel` bounds the walk. -/
def generate_sentence_custom (t : Table) (min_words max_words : Nat) (exc : Bool)
    (fuel : Nat) (rng : List Nat) : Option CustomResult :=
  if exc then some ⟨custom_error_sentence, t, none, rng⟩
  else if t.isEmpty then some ⟨no_data_sentence, t, none, rng⟩
  else if 50 < t.length then
    let start_words := (t.map Prod.fst).filter startWordOk
    if start_words.isEmpty then
      let (s, rng') := choice base_sentences rng
      some ⟨s, t, none, rng'⟩
    else
      let (current, rng') := choice start_words rng
      match walkLoop min_words max_words fuel t current [pyCapitalize current] 1 rng' with
      | none => none
      | some (words, t', len, reason, rng'') =>
        let words' := if isTerminalTok (words.getLastD "") then words else words ++ ["."]
        some ⟨fixPunct (joinWords words'), t', some (len, reason), rng''⟩
  else
    let (s, rng') := choice base_sentences rng
    some ⟨s, t, none, rng'⟩

/-- The check applied to a candidate's last word:
`words[-1].lower().rstrip('.!?')`. -/
def lastWordCheck (w : String) : String :=
  ⟨((pyLower w).data.reverse.dropWhile (fun c => c = '.' || c = '!' || c = '?')).reverse⟩

/-- The attempt loop of `generate_sentence_markovify`: ask the oracle for a
sentence, skip falsy results, accept when the last word (lower-cased, with
trailing terminators stripped) is not a forbidden ending, else retry; fall
back to `generate_sentence_custom(min_words=8, max_words=20)` when attempts
are exhausted.  The middle component is true exactly on acceptance. -/
def mkvLoop (t : Table) (ng : NgramModel) : Nat → Nat → List Nat →
    Option (String × Bool × List Nat)
  | 0, fuel, rng =>
    (generate_sentence_custom t 8 20 false fuel rng).map fun r => (r.sentence, false, r.rng)
  | attempts + 1, fuel, rng =>
    let draw := rng.headD 0
    let rng' := rng.tail
    match ng.make_sentence draw with
    | none => mkvLoop t ng attempts fuel rng'
    | some s =>
      if s = "" then mkvLoop t ng attempts fuel rng'
      else
        let words := pySplit s
        if words ≠ [] ∧ ¬ forbidden_endings.contains (lastWordCheck (words.getLastD ""))
        then some (capitalize_first_letter s, true, rng')
        else mkvLoop t ng attempts fuel rng'

/-- Embedding of `generate_sentence_markovify`: with no markovify model,
delegate to the custom strategy (with its default 8/20 budget); otherwise run
the attempt loop. -/
def generate_sentence_markovify (st : LiveModel) (attempts : Nat) (fuel : Nat)
    (rng : List Nat) : Option (String × Bool × List Nat) :=
  match st.markovify_model with
  | none =>
    (generate_sentence_custom st.markov_model 8 20 false fuel rng).map fun r =>
      (r.sentence, false, r.rng)
  | some ng => mkvLoop st.markov_model ng attempts fuel rng

/-- Which of the two strategies a dispatcher step invoked. -/
inductive Strategy where
  | markovify
  | custom
deriving DecidableEq

/-- Run one strategy from the dispatcher (markovify is always called with its
default 15 attempts). -/
def runStrategy (st : LiveModel) (mn mx : Nat) (strat : Strategy) (fuel : Nat)
    (rng : List Nat) : Option (String × List Nat) :=
  match strat with
  | .markovify => (generate_sentence_markovify st 15 fuel rng).map fun r => (r.1, r.2.2)
  | .custom =>
    (generate_sentence_custom st.markov_model mn mx false fuel rng).map fun r =>
      (r.sentence, r.rng)

/-- Embedding of `generate_sentence`.  `coin1` is the outcome of
`random.random() < 0.7`, `coin2` of `random.random() < 0.5`; `exc` models an
exception inside the `try` body.  Besides the sentence, the result carries the
list of strategies invoked, in order (instrumentation only). -/
def generate_sentence (st : LiveModel) (min_words max_words : Nat)
    (coin1 coin2 : Bool) (exc : Bool) (fuel : Nat) (rng : List Nat) :
    Option (String × List Strategy × List Nat) :=
  if exc then some (dispatcher_error_sentence, [], rng)
  else
    let strat1 := if coin1 && st.markovify_model.isSome then Strategy.markovify else Strategy.custom
    match runStrategy st min_words max_words strat1 fuel rng with
    | none => none
    | some (s1, rng1) =>
      if (pySplit s1).length < min_words then
        let strat2 := if coin2 then Strategy.markovify else Strategy.custom
        match runStrategy st min_words max_words strat2 fuel rng1 with
        | none => none
        | some (s2, rng2) =>
          if (pySplit s2).length < min_words then
            match generate_sentence_custom st.markov_model min_words 30 false fuel rng2 with
            | none => none
            | some r => some (r.sentence, [strat1, strat2, .custom], r.rng)
          else some (s2, [strat1, strat2], rng2)
      else some (s1, [strat1], rng1)

/-!
Concrete inputs used by witnesses and counterexamples.
-/

/-- Fifty distinct two-letter filler keys, each with the single successor
`"z"`, used to push a table above the 50-key threshold. -/
def fillerKeys : Table :=
  (List.range 50).map fun i =>
    (⟨[Char.ofNat (97 + i % 26), Char.ofNat (97 + i / 26)]⟩, ["z"])

/-- A 51-key table whose only admissible start word leads the walk to the
forbidden token `"и"`, which has no successors. -/
def endForbiddenTable : Table := ("b0", ["и"]) :: fillerKeys

/-- A 51-key table with a punctuation cycle: from `"aa"` the walk reaches
`","`, whose only successor is `","` again; the counter never grows. -/
def commaCycleTable : Table := ("aa", [","]) :: (",", [","]) :: fillerKeys

/-- A 51-message corpus of filter-valid messages: an 8-step chain of
alphabetic tokens ending in a full stop, plus 43 fillers. -/
def c4corpus : List String :=
  ["aa ab", "ab ac", "ac ad", "ad ae", "ae af", "af ag", "ag ah", "ah ."] ++
  (["ba", "bb", "bc", "bd", "be", "bf", "bg", "bh", "bi", "bj", "bk", "bl", "bm",
    "bn", "bo", "bp", "bq", "br", "bs", "bt", "bu", "bv", "bw", "bx", "by", "bz",
    "ca", "cb", "cc", "cd", "ce", "cf", "cg", "ch", "ci", "cj", "ck", "cl", "cm",
    "cn", "co", "cp", "cq"].map (fun w => w ++ " z"))

/-- A markovify oracle that always produces the same short sentence with an
admissible ending. -/
def shortOkNgram : NgramModel := ⟨fun _ => some "Дом стоит."⟩

/-- A markovify constructor that always raises. -/
def failNgBuild : String → Except Unit NgramModel := fun _ => .error ()

/-- A markovify oracle used as a pre-existing installed model. -/
def idleNgram : NgramModel := ⟨fun _ => none⟩

/-!
Claim-level definitions.
-/

/-- The successor occurrences of `k` in a token sequence: the second
components of all adjacent pairs whose first component is `k`. -/
def pairSuccs (toks : List String) (k : String) : List String :=
  (toks.zip toks.tail).filterMap (fun p => if p.1 = k then some p.2 else none)

/-- The successor occurrences of `k` inside one tokenized message. -/
def succsIn (msg : String) (k : String) : List String :=
  pairSuccs (tokenize_text msg) k

/-- Number of whitespace-words of the text that consist purely of alphabetic
characters. -/
def alphaWordCount (s : String) : Nat := ((pySplit s).filter pyStrIsAlpha).length

/-- An exception was raised during the corpus read or during the model build
of a rebuild run (the only failure points of the embedded rebuild: the
database read and the markovify constructor). -/
def rebuildRaised (corpus : Except Unit (List String))
    (buildNg : String → Except Unit NgramModel) : Prop :=
  corpus = .error () ∨
    ∃ msgs, corpus = .ok msgs ∧ msgs ≠ [] ∧ processed_messages msgs ≠ [] ∧
      buildNg (joinNl (processed_messages msgs)) = .error ()

/-- The retry clause of claim C7 as stated: whenever the dispatcher performs a
second attempt, the strategy of the second attempt differs from the first. -/
def claimC7retry : Prop :=
  ∀ st mn mx c1 c2 fuel rng s tr rng2,
    generate_sentence st mn mx c1 c2 false fuel rng = some (s, tr, rng2) →
    ∀ t1 t2, tr.get? 0 = some t1 → tr.get? 1 = some t2 → t2 ≠ t1

/-- Claim C8 as stated: on every input both generation functions return (some
fuel suffices) and the result is non-empty. -/
def claimC8 : Prop :=
  (∀ t mn mx exc rng, ∃ fuel r,
      generate_sentence_custom t mn mx exc fuel rng = some r ∧ r.sentence ≠ "") ∧
  (∀ st mn mx c1 c2 exc rng, ∃ fuel out,
      generate_sentence st mn mx c1 c2 exc fuel rng = some out ∧ out.1 ≠ "")

/-!
Lemmas about the transition table.
-/

theorem bucketOf_tableAppend (t : Table) (a b : String) :
    ∀ k, bucketOf (tableAppend t a b) k = bucketOf t k ++ (if a = k then [b] else []) := by
  induction t with
  | nil =>
    intro k
    by_cases hak : a = k <;> simp [tableAppend, bucketOf, tget, hak]
  | cons p rest ih =>
    obtain ⟨k', vs⟩ := p
    intro k
    by_cases hka : k' = a
    · by_cases hkk : k' = k
      · have hak : a = k := by rw [← hka, hkk]
        simp [tableAppend, bucketOf, tget, hka, hkk, hak]
      · have hak : ¬ a = k := by rw [← hka]; exact hkk
        simp [tableAppend, bucketOf, tget, hka, hkk, hak]
    · by_cases hkk : k' = k
      · have hak : ¬ a = k := by rw [← hkk]; intro h; exact hka h.symm
        have hka2 : ¬ k = a := by rw [← hkk]; exact hka
        simp [tableAppend, bucketOf, tget, hka, hkk, hak, hka2]
      · simp only [tableAppend, bucketOf, tget, if_neg hka, if_neg hkk]
        exact ih k

theorem pairSuccs_short (toks : List String) (h : toks.length < 2) (k : String) :
    pairSuccs toks k = [] := by
  match toks with
  | [] => rfl
  | [a] => rfl
  | a :: b :: r =>
    simp only [List.length_cons] at h
    exact absurd h (by omega)

theorem bucketOf_addPairs (toks : List String) :
    ∀ t k, bucketOf (addPairs t toks) k = bucketOf t k ++ pairSuccs toks k := by
  induction toks with
  | nil => intro t k; simp [addPairs, pairSuccs]
  | cons a rest ih =>
    cases rest with
    | nil => intro t k; simp [addPairs, pairSuccs]
    | cons b rest' =>
      intro t k
      have hstep : addPairs t (a :: b :: rest') = addPairs (tableAppend t a b) (b :: rest') := rfl
      rw [hstep, ih (tableAppend t a b) k, bucketOf_tableAppend, List.append_assoc]
      congr 1
      by_cases hak : a = k <;> simp [pairSuccs, List.filterMap_cons, hak]

theorem bucketOf_addMessage (t : Table) (msg k : String) :
    bucketOf (addMessage t msg) k = bucketOf t k ++ succsIn msg k := by
  unfold addMessage succsIn
  by_cases h : (tokenize_text msg).length < 2
  · simp [h, pairSuccs_short _ h]
  · simp [h, bucketOf_addPairs]

theorem bucketOf_foldl (msgs : List String) :
    ∀ t k, bucketOf (msgs.foldl addMessage t) k =
      bucketOf t k ++ (msgs.map (fun m => succsIn m k)).flatten := by
  induction msgs with
  | nil => intro t k; simp
  | cons m rest ih =>
    intro t k
    rw [List.foldl_cons, ih (addMessage t m) k, bucketOf_addMessage, List.map_cons,
      List.flatten_cons, List.append_assoc]

theorem bucketOf_buildTable (msgs : List String) (k : String) :
    bucketOf (buildTable msgs) k = (msgs.map (fun m => succsIn m k)).flatten := by
  have h := bucketOf_foldl msgs [] k
  simpa [buildTable, bucketOf, tget] using h

/-- Claim C5: the transition-table build is deterministic and idempotent over
a fixed corpus sequence — two builds from the same message sequence have the
same key list and, for every key, the same successor multiset.  The embedded
build is a pure function, so the two runs are definitionally equal; the third
conjunct substantiates the determinism: every bucket is exactly the
concatenation, message by message, of the successor occurrences of its key,
with no dependence on anything but the corpus sequence. -/
theorem rebuild_deterministic_idempotent (messages : List String) :
    ((buildTable messages).map Prod.fst = (buildTable messages).map Prod.fst ∧
      ∀ k, Multiset.ofList (bucketOf (buildTable messages) k) =
        Multiset.ofList (bucketOf (buildTable messages) k)) ∧
    ∀ k, bucketOf (buildTable messages) k = (messages.map (fun m => succsIn m k)).flatten :=
  ⟨⟨rfl, fun _ => rfl⟩, fun k => bucketOf_buildTable messages k⟩

/-!
Update coordinator: claims C2 and C3.
-/

/-- Claim C2 counterexample: with an empty live table, a one-message corpus
and a markovify constructor that raises, the rebuild catches the error but
does not install the freshly built transition table (the live table stays
empty even though the fresh build is non-empty), and the previous n-gram
model is retained rather than treated as absent. -/
theorem markovify_error_discards_table_cex :
    (update_markov_model ⟨[], some idleNgram⟩ true (.ok ["aa bb cc"]) failNgBuild).1.markov_model
        = [] ∧
    buildTable ["aa bb cc"] = [("aa", ["bb"]), ("bb", ["cc"])] ∧
    (update_markov_model ⟨[], some idleNgram⟩ true
        (.ok ["aa bb cc"]) failNgBuild).1.markovify_model.isSome = true := by
  refine ⟨rfl, by decide, rfl⟩

/-- Claim C2 amended: an error from the markovify constructor is caught (the
rebuild returns normally, permit released), but the whole rebuild result is
discarded — neither the transition table nor the n-gram model is installed,
exactly as for a corpus-fetch error.  The new table is installed only when the
n-gram construction succeeds, or when no message qualifies for the n-gram blob
(in which case the n-gram model is installed as absent). -/
theorem markovify_error_aborts_install (st : LiveModel) (msgs : List String)
    (buildNg : String → Except Unit NgramModel) :
    (update_markov_model st true (.error ()) buildNg = (st, true)) ∧
    (msgs ≠ [] → processed_messages msgs ≠ [] →
      buildNg (joinNl (processed_messages msgs)) = .error () →
      update_markov_model st true (.ok msgs) buildNg = (st, true)) ∧
    (msgs ≠ [] → processed_messages msgs = [] →
      update_markov_model st true (.ok msgs) buildNg =
        ({ markov_model := buildTable msgs, markovify_model := none }, true)) ∧
    (∀ m, msgs ≠ [] → processed_messages msgs ≠ [] →
      buildNg (joinNl (processed_messages msgs)) = .ok m →
      update_markov_model st true (.ok msgs) buildNg =
        ({ markov_model := buildTable msgs, markovify_model := some m }, true)) := by
  refine ⟨rfl, ?_, ?_, ?_⟩
  · intro hmsgs hproc herr
    simp [update_markov_model, hmsgs, hproc, herr]
  · intro hmsgs hproc
    simp [update_markov_model, hmsgs, hproc]
  · intro m hmsgs hproc hok
    simp [update_markov_model, hmsgs, hproc, hok]

/-- Witness for the amended C2 theorem at a concrete input. -/
theorem markovify_error_aborts_install_witness :
    update_markov_model ⟨[], none⟩ true (.ok ["aa bb cc"]) failNgBuild = (⟨[], none⟩, true) :=
  (markovify_error_aborts_install ⟨[], none⟩ ["aa bb cc"] failNgBuild).2.1
    (by decide) (by decide) rfl

/-- Claim C3: for every rebuild invocation that acquires the permit, the
permit is released on every path, and whenever an exception is raised during
the corpus read or the model build, the live model snapshot (both components)
is left unchanged. -/
theorem rebuild_failure_preserves_snapshot (st : LiveModel)
    (corpus : Except Unit (List String)) (buildNg : String → Except Unit NgramModel) :
    (update_markov_model st true corpus buildNg).2 = true ∧
    (rebuildRaised corpus buildNg → (update_markov_model st true corpus buildNg).1 = st) := by
  cases corpus with
  | error e => exact ⟨rfl, fun _ => rfl⟩
  | ok msgs =>
    by_cases hmsgs : msgs = []
    · subst hmsgs; exact ⟨rfl, fun _ => rfl⟩
    · by_cases hproc : processed_messages msgs = []
      · refine ⟨by simp [update_markov_model, hmsgs, hproc], ?_⟩
        rintro (h | ⟨msgs', hmsgs', _, hproc', _⟩)
        · cases h
        · cases hmsgs'; exact absurd hproc hproc'
      · cases hbuild : buildNg (joinNl (processed_messages msgs)) with
        | ok m =>
          refine ⟨by simp [update_markov_model, hmsgs, hproc, hbuild], ?_⟩
          rintro (h | ⟨msgs', hmsgs', _, _, herr⟩)
          · cases h
          · cases hmsgs'; rw [hbuild] at herr; cases herr
        | error e =>
          exact ⟨by simp [update_markov_model, hmsgs, hproc, hbuild],
            fun _ => by simp [update_markov_model, hmsgs, hproc, hbuild]⟩

/-- Witness for C3 at a concrete input: a failing corpus read releases the
permit and leaves the concrete snapshot unchanged. -/
theorem rebuild_failure_preserves_snapshot_witness :
    (update_markov_model ⟨[("aa", ["bb"])], none⟩ true (.error ()) failNgBuild).2 = true ∧
    (update_markov_model ⟨[("aa", ["bb"])], none⟩ true (.error ()) failNgBuild).1 =
      ⟨[("aa", ["bb"])], none⟩ :=
  ⟨(rebuild_failure_preserves_snapshot ⟨[("aa", ["bb"])], none⟩ (.error ()) failNgBuild).1,
   (rebuild_failure_preserves_snapshot ⟨[("aa", ["bb"])], none⟩ (.error ()) failNgBuild).2
     (Or.inl rfl)⟩

/-!
Message filter: claims C6 and C10.
-/

/-- Claim C6: the five boundary cases of the message filter. -/
theorem filter_boundary_cases :
    is_message_valid (some "ab") = false ∧
    is_message_valid (some "abc") = true ∧
    is_message_valid (some "check http://x.co") = false ∧
    is_message_valid (some "hello @bob") = false ∧
    is_message_valid (some "/gm") = false := by
  decide

/-- Claim C10: because the special-character class contains the range `)-:`
(0x29-0x3A), any text whose non-word, non-whitespace characters all lie in
that range — which includes `*`, `+`, `/`, `-`, `.` — passes the
special-character check, and an otherwise valid text containing `*` and `+`
is accepted by the full filter. -/
theorem special_char_range_accepts (s : String)
    (h : ∀ c ∈ s.data, isWordChar c = false → isWsChar c = false →
      0x29 ≤ c.toNat ∧ c.toNat ≤ 0x3A) :
    contains_special_characters s = false ∧
    is_message_valid (some "abc * def + ghi") = true := by
  refine ⟨?_, by decide⟩
  unfold contains_special_characters
  rw [List.any_eq_false]
  intro c hc
  simp only [Bool.not_eq_true']
  cases hw : isWordChar c with
  | true => simp [allowedMsgChar, hw]
  | false =>
    cases hws : isWsChar c with
    | true => simp [allowedMsgChar, hws]
    | false =>
      have := h c hc hw hws
      simp [allowedMsgChar, decide_eq_true_eq]
      omega

/-- Witness for C10 at a concrete input. -/
theorem special_char_range_accepts_witness :
    contains_special_characters "ab*c/d-e+f" = false ∧
    is_message_valid (some "abc * def + ghi") = true :=
  special_char_range_accepts "ab*c/d-e+f" (by decide)

/-!
Lemmas about the random walk of `generate_sentence_custom`.
-/

theorem dictGet_present {t : Table} {k : String} {vs : List String}
    (h : tget t k = some vs) : dictGet t k = (vs, t) := by
  simp [dictGet, h]

theorem walkLoop_zero (mn mx : Nat) (t : Table) (cur : String) (words : List String)
    (len : Nat) (rng : List Nat) :
    walkLoop mn mx 0 t cur words len rng =
      if mx ≤ len then some (words, t, len, .maxed, rng) else none := rfl

theorem walkLoop_succ (mn mx fuel : Nat) (t : Table) (cur : String) (words : List String)
    (len : Nat) (rng : List Nat) :
    walkLoop mn mx (fuel + 1) t cur words len rng =
      if mx ≤ len then some (words, t, len, .maxed, rng)
      else
        match tget t cur with
        | none => some (words, t, len, .deadEnd, rng)
        | some _ =>
          let p1 := dictGet t cur
          if p1.1 = [] then some (words, p1.2, len, .deadEnd, rng)
          else
            let p2 := dictGet p1.2 cur
            let next := (choice p2.1 rng).1
            let rng2 := (choice p2.1 rng).2
            let words2 := words ++ [next]
            let len2 := if pyStrIsAlpha next then len + 1 else len
            if isTerminalTok next ∧ mn ≤ len2 then some (words2, p2.2, len2, .terminal, rng2)
            else walkLoop mn mx fuel p2.2 next words2 len2 rng2 := rfl

theorem walkLoop_spec (mn mx : Nat) :
    ∀ fuel t cur words len rng w' t' len' reason rng',
      walkLoop mn mx fuel t cur words len rng = some (w', t', len', reason, rng') →
      t' = t ∧ (∃ tail, w' = words ++ tail) ∧ len ≤ len' ∧
        (reason = WalkEnd.deadEnd ∨ mn ≤ len' ∨ mx ≤ len') := by
  intro fuel
  induction fuel with
  | zero =>
    intro t cur words len rng w' t' len' reason rng' h
    rw [walkLoop_zero] at h
    by_cases hmx : mx ≤ len
    · rw [if_pos hmx] at h
      simp only [Option.some.injEq, Prod.mk.injEq] at h
      obtain ⟨hw, ht, hl, hr, hg⟩ := h
      subst hw ht hl hr hg
      exact ⟨rfl, ⟨[], by simp⟩, le_refl _, Or.inr (Or.inr hmx)⟩
    · rw [if_neg hmx] at h
      cases h
  | succ fuel ih =>
    intro t cur words len rng w' t' len' reason rng' h
    rw [walkLoop_succ] at h
    by_cases hmx : mx ≤ len
    · rw [if_pos hmx] at h
      simp only [Option.some.injEq, Prod.mk.injEq] at h
      obtain ⟨hw, ht, hl, hr, hg⟩ := h
      subst hw ht hl hr hg
      exact ⟨rfl, ⟨[], by simp⟩, le_refl _, Or.inr (Or.inr hmx)⟩
    · rw [if_neg hmx] at h
      cases htget : tget t cur with
      | none =>
        rw [htget] at h
        simp only [Option.some.injEq, Prod.mk.injEq] at h
        obtain ⟨hw, ht, hl, hr, hg⟩ := h
        subst hw ht hl hr hg
        exact ⟨rfl, ⟨[], by simp⟩, le_refl _, Or.inl rfl⟩
      | some bs =>
        rw [htget] at h
        simp only [dictGet_present htget] at h
        by_cases hbs : bs = []
        · rw [if_pos hbs] at h
          simp only [Option.some.injEq, Prod.mk.injEq] at h
          obtain ⟨hw, ht, hl, hr, hg⟩ := h
          subst hw ht hl hr hg
          exact ⟨rfl, ⟨[], by simp⟩, le_refl _, Or.inl rfl⟩
        · rw [if_neg hbs] at h
          have hlen2 : len ≤ (if pyStrIsAlpha ((choice bs rng).1) then len + 1 else len) := by
            split <;> omega
          by_cases hterm : isTerminalTok ((choice bs rng).1) ∧
              mn ≤ (if pyStrIsAlpha ((choice bs rng).1) then len + 1 else len)
          · rw [if_pos hterm] at h
            simp only [Option.some.injEq, Prod.mk.injEq] at h
            obtain ⟨hw, ht, hl, hr, hg⟩ := h
            subst hw ht hl hr hg
            exact ⟨rfl, ⟨[(choice bs rng).1], rfl⟩, hlen2, Or.inr (Or.inl hterm.2)⟩
          · rw [if_neg hterm] at h
            obtain ⟨ht', ⟨tail, htail⟩, hle, hreason⟩ :=
              ih t ((choice bs rng).1) (words ++ [(choice bs rng).1])
                (if pyStrIsAlpha ((choice bs rng).1) then len + 1 else len)
                ((choice bs rng).2) w' t' len' reason rng' h
            exact ⟨ht', ⟨[(choice bs rng).1] ++ tail, by rw [htail, List.append_assoc]⟩,
              le_trans hlen2 hle, hreason⟩

/-!
String-level lemmas for the generated sentences.
-/

theorem data_append (s v : String) : (s ++ v).data = s.data ++ v.data := by
  cases s; cases v; rfl

theorem replace2_ne_nil (a b : Char) (l : List Char) (h : l ≠ []) :
    replace2 a b l ≠ [] := by
  match l with
  | [] => exact absurd rfl h
  | [x] => simp [replace2]
  | x :: y :: rest =>
    simp only [replace2]
    split
    · exact List.cons_ne_nil _ _
    · exact List.cons_ne_nil _ _

theorem replace2_getLast (a b : Char) : ∀ l : List Char,
    (replace2 a b l).getLast? = l.getLast?
  | [] => rfl
  | [x] => rfl
  | x :: y :: rest => by
    simp only [replace2]
    split
    · rename_i hcond
      cases hrest : rest with
      | nil => simp [replace2, hcond.2]
      | cons z rest' =>
        have hne : replace2 a b (z :: rest') ≠ [] :=
          replace2_ne_nil a b _ (List.cons_ne_nil _ _)
        obtain ⟨m, M, hM⟩ : ∃ m M, replace2 a b (z :: rest') = m :: M := by
          cases hx : replace2 a b (z :: rest') with
          | nil => exact absurd hx hne
          | cons m M => exact ⟨m, M, rfl⟩
        rw [hM, List.getLast?_cons_cons, ← hM, replace2_getLast a b (z :: rest'),
          List.getLast?_cons_cons, List.getLast?_cons_cons]
    · have hne : replace2 a b (y :: rest) ≠ [] :=
        replace2_ne_nil a b _ (List.cons_ne_nil _ _)
      obtain ⟨m, M, hM⟩ : ∃ m M, replace2 a b (y :: rest) = m :: M := by
        cases hx : replace2 a b (y :: rest) with
        | nil => exact absurd hx hne
        | cons m M => exact ⟨m, M, rfl⟩
      rw [hM, List.getLast?_cons_cons, ← hM, replace2_getLast a b (y :: rest),
        List.getLast?_cons_cons]

theorem fixPunct_data_ne_nil (s : String) (h : s.data ≠ []) : (fixPunct s).data ≠ [] := by
  unfold fixPunct
  exact replace2_ne_nil _ _ _ (replace2_ne_nil _ _ _ (replace2_ne_nil _ _ _
    (replace2_ne_nil _ _ _ h)))

theorem fixPunct_getLast (s : String) : (fixPunct s).data.getLast? = s.data.getLast? := by
  unfold fixPunct
  rw [replace2_getLast, replace2_getLast, replace2_getLast, replace2_getLast]

theorem joinWords_last (w : String) (hw : w.data ≠ []) : ∀ ws : List String,
    (joinWords (ws ++ [w])).data ≠ [] ∧
      (joinWords (ws ++ [w])).data.getLast? = w.data.getLast?
  | [] => by simp [joinWords, hw]
  | x :: ws' => by
    have hcons : (x :: ws') ++ [w] = x :: (ws' ++ [w]) := rfl
    obtain ⟨v, rest, hvr⟩ : ∃ v rest, ws' ++ [w] = v :: rest := by
      cases hx : ws' ++ [w] with
      | nil => exact absurd hx (by simp)
      | cons v rest => exact ⟨v, rest, rfl⟩
    have ih := joinWords_last w hw ws'
    rw [hvr] at ih
    obtain ⟨gl, hgl⟩ : ∃ gl, (joinWords (v :: rest)).data.getLast? = some gl := by
      cases hx : (joinWords (v :: rest)).data.getLast? with
      | none => exact absurd (List.getLast?_eq_none_iff.mp hx) ih.1
      | some gl => exact ⟨gl, rfl⟩
    have hjoin : joinWords (x :: v :: rest) = x ++ " " ++ joinWords (v :: rest) := rfl
    rw [hcons, hvr, hjoin]
    constructor
    · rw [data_append]
      intro hnil
      exact ih.1 (List.append_eq_nil.mp hnil).2
    · rw [data_append, List.getLast?_append, hgl]
      rw [hgl] at ih
      exact ih.2

theorem capitalize_first_letter_ne (s : String) (h : s.data ≠ []) :
    (capitalize_first_letter s).data ≠ [] := by
  unfold capitalize_first_letter
  cases hs : s.data with
  | nil => exact absurd hs h
  | cons c rest => simp [hs]

/-- Bounded facts about the fallback pool, checked by evaluation. -/
theorem base_sentences_facts : ∀ j, j < 8 →
    endsInTerminalChar (base_sentences.getD j "") = true ∧
      (base_sentences.getD j "").data ≠ [] := by decide

theorem choice_base_ends (rng : List Nat) :
    endsInTerminalChar (choice base_sentences rng).1 = true ∧
      (choice base_sentences rng).1.data ≠ [] := by
  have hlt : (rng.headD 0) % base_sentences.length < 8 :=
    Nat.mod_lt _ (by norm_num [base_sentences])
  exact base_sentences_facts _ hlt

theorem isTerminalTok_cases (w : String) (h : isTerminalTok w = true) :
    w = "." ∨ w = "!" ∨ w = "?" := by
  simp only [isTerminalTok, Bool.or_eq_true, decide_eq_true_eq] at h
  tauto

/-- Master lemma about `generate_sentence_custom`: every returned result has a
non-empty sentence whose final character is terminal punctuation; the
exception path returns the fixed fallback; the walk information satisfies the
length/end-reason invariant; and the transition table is returned unchanged. -/
theorem custom_spec (t : Table) (mn mx : Nat) (exc : Bool) (fuel : Nat) (rng : List Nat)
    (r : CustomResult) (h : generate_sentence_custom t mn mx exc fuel rng = some r) :
    r.sentence.data ≠ [] ∧ endsInTerminalChar r.sentence = true ∧
    (exc = true → r.sentence = custom_error_sentence) ∧
    (∀ len reason, r.walkInfo = some (len, reason) →
      reason = WalkEnd.deadEnd ∨ mn ≤ len ∨ mx ≤ len) ∧
    r.table = t := by
  unfold generate_sentence_custom at h
  by_cases hexc : exc = true
  · rw [if_pos hexc] at h
    obtain rfl : (⟨custom_error_sentence, t, none, rng⟩ : CustomResult) = r :=
      Option.some.inj h
    refine ⟨show custom_error_sentence.data ≠ [] by decide,
      show endsInTerminalChar custom_error_sentence = true by decide, fun _ => rfl, ?_, rfl⟩
    intro len reason hli; cases hli
  · rw [if_neg hexc] at h
    replace hexc : exc = false := by
      cases exc
      · rfl
      · exact absurd rfl hexc
    by_cases hempty : t.isEmpty
    · rw [if_pos hempty] at h
      obtain rfl : (⟨no_data_sentence, t, none, rng⟩ : CustomResult) = r :=
        Option.some.inj h
      refine ⟨show no_data_sentence.data ≠ [] by decide,
        show endsInTerminalChar no_data_sentence = true by decide,
        fun he => absurd he (by simp [hexc]), ?_, rfl⟩
      intro len reason hli; cases hli
    · rw [if_neg hempty] at h
      by_cases h50 : 50 < t.length
      · rw [if_pos h50] at h
        by_cases hsw : ((t.map Prod.fst).filter startWordOk).isEmpty
        · rw [if_pos hsw] at h
          obtain rfl : (⟨(choice base_sentences rng).1, t, none,
              (choice base_sentences rng).2⟩ : CustomResult) = r := Option.some.inj h
          refine ⟨(choice_base_ends rng).2, (choice_base_ends rng).1,
            fun he => absurd he (by simp [hexc]), ?_, rfl⟩
          intro len reason hli; cases hli
        · rw [if_neg hsw] at h
          replace h :
              (match walkLoop mn mx fuel t
                  ((choice ((t.map Prod.fst).filter startWordOk) rng).1)
                  [pyCapitalize ((choice ((t.map Prod.fst).filter startWordOk) rng).1)] 1
                  ((choice ((t.map Prod.fst).filter startWordOk) rng).2) with
                | none => (none : Option CustomResult)
                | some (words, t', len, reason, rng'') =>
                  some ⟨fixPunct (joinWords
                      (if isTerminalTok (words.getLastD "") then words else words ++ ["."])),
                    t', some (len, reason), rng''⟩) = some r := h
          cases hwalk : walkLoop mn mx fuel t
              ((choice ((t.map Prod.fst).filter startWordOk) rng).1)
              [pyCapitalize ((choice ((t.map Prod.fst).filter startWordOk) rng).1)] 1
              ((choice ((t.map Prod.fst).filter startWordOk) rng).2) with
          | none => rw [hwalk] at h; cases h
          | some out =>
            obtain ⟨words, t', len, reason, rng2⟩ := out
            rw [hwalk] at h
            obtain ⟨ht', ⟨tail, htail⟩, hle, hreason⟩ :=
              walkLoop_spec mn mx fuel t _ _ 1 _ words t' len reason rng2 hwalk
            obtain rfl :
                (⟨fixPunct (joinWords
                    (if isTerminalTok (words.getLastD "") then words else words ++ ["."])),
                  t', some (len, reason), rng2⟩ : CustomResult) = r := Option.some.inj h
            have hwordsne : words ≠ [] := by
              rw [htail]; exact List.cons_ne_nil _ _
            obtain ⟨fin, ws0, hfin, hsplit⟩ :
                ∃ fin ws0, isTerminalTok fin = true ∧
                  (if isTerminalTok (words.getLastD "") then words else words ++ ["."]) =
                    ws0 ++ [fin] := by
              by_cases hterm : isTerminalTok (words.getLastD "")
              · refine ⟨words.getLastD "", words.dropLast, hterm, ?_⟩
                rw [if_pos hterm]
                rw [List.getLastD_eq_getLast? , List.getLast?_eq_getLast _ hwordsne,
                  Option.getD_some]
                exact (List.dropLast_append_getLast hwordsne).symm
              · exact ⟨".", words, by decide, by rw [if_neg hterm]⟩
            rw [hsplit]
            have hfindata : fin.data ≠ [] := by
              rcases isTerminalTok_cases fin hfin with rfl | rfl | rfl <;> decide
            have hjl := joinWords_last fin hfindata ws0
            refine ⟨fixPunct_data_ne_nil _ hjl.1, ?_,
              fun he => absurd he (by simp [hexc]), ?_, ht'⟩
            · unfold endsInTerminalChar
              rw [fixPunct_getLast, hjl.2]
              rcases isTerminalTok_cases fin hfin with rfl | rfl | rfl <;> decide
            · intro len0 reason0 hli
              obtain ⟨hlen0, hreason0⟩ : len = len0 ∧ reason = reason0 := by
                have := Option.some.inj hli
                exact ⟨congrArg Prod.fst this, congrArg Prod.snd this⟩
              subst hlen0 hreason0
              rcases hreason with h1 | h2 | h3
              · exact Or.inl h1
              · exact Or.inr (Or.inl h2)
              · exact Or.inr (Or.inr h3)
      · rw [if_neg h50] at h
        obtain rfl : (⟨(choice base_sentences rng).1, t, none,
            (choice base_sentences rng).2⟩ : CustomResult) = r := Option.some.inj h
        refine ⟨(choice_base_ends rng).2, (choice_base_ends rng).1,
          fun he => absurd he (by simp [hexc]), ?_, rfl⟩
        intro len reason hli; cases hli

/-!
Claims C4 and C9.
-/

/-- Claim C4 counterexample: over a valid, non-empty 51-message corpus whose
table has 51 keys, a run of `generate_sentence_custom(8, 20)` ends by drawing
terminal punctuation (never hitting a dead end), yet the returned text has
only 7 purely alphabetic words — the final word carries the attached full
stop, so the count of alphabetic words of the output stays below
`min_words`. -/
theorem generate_custom_alpha_count_cex :
    c4corpus ≠ [] ∧
    c4corpus.all (fun m => is_message_valid (some m)) = true ∧
    50 < (buildTable c4corpus).length ∧
    (generate_sentence_custom (buildTable c4corpus) 8 20 false 100
        [0, 0, 0, 0, 0, 0, 0, 0, 0, 0]).map (fun r => (r.sentence, r.walkInfo)) =
      some ("Aa ab ac ad ae af ag ah.", some (8, WalkEnd.terminal)) ∧
    endsInTerminalChar "Aa ab ac ad ae af ag ah." = true ∧
    alphaWordCount "Aa ab ac ad ae af ag ah." = 7 ∧ ¬ (8 : Nat) ≤ 7 := by
  refine ⟨by decide, by decide, by decide, by decide, by decide, by decide, by decide⟩

/-- Claim C4 amended: for every table with more than 50 keys and
`min_words ≤ max_words`, any sentence `generate_sentence_custom` returns ends
in `.`, `!` or `?` and is non-empty; and when the sentence comes from the
random walk, the walk's internal counter of alphabetic tokens reaches at
least `min_words` unless the walk ended on a token with no recorded
successors.  (The counter counts walk tokens; in the returned text the final
word carries its attached punctuation, so the count of purely alphabetic
output words can be one lower.) -/
theorem generate_custom_terminal_and_length (t : Table) (mn mx fuel : Nat)
    (rng : List Nat) (r : CustomResult) (_hkeys : 50 < t.length) (hminmax : mn ≤ mx)
    (h : generate_sentence_custom t mn mx false fuel rng = some r) :
    endsInTerminalChar r.sentence = true ∧ r.sentence.data ≠ [] ∧
    ∀ len reason, r.walkInfo = some (len, reason) →
      reason = WalkEnd.deadEnd ∨ mn ≤ len := by
  obtain ⟨hne, hends, _, hwi, _⟩ := custom_spec t mn mx false fuel rng r h
  refine ⟨hends, hne, ?_⟩
  intro len reason hli
  rcases hwi len reason hli with h1 | h2 | h3
  · exact Or.inl h1
  · exact Or.inr h2
  · exact Or.inr (le_trans hminmax h3)

/-- Witness for the amended C4 theorem at a concrete run. -/
theorem generate_custom_terminal_and_length_witness :
    endsInTerminalChar "Aa ab ac ad ae af ag ah." = true ∧
    (8 : Nat) ≤ 8 := by
  have h := generate_custom_terminal_and_length (buildTable c4corpus) 8 20 100
    [0, 0, 0, 0, 0, 0, 0, 0, 0, 0]
    ⟨"Aa ab ac ad ae af ag ah.", buildTable c4corpus, some (8, .terminal), [0]⟩
    (by decide) (by decide) (by decide)
  refine ⟨h.1, ?_⟩
  rcases h.2.2 8 .terminal rfl with hbad | hgood
  · cases hbad
  · exact hgood

/-!
Claim C9: table buckets are never empty, and generation reads leave the
table unchanged.
-/

theorem tableAppend_buckets_ne (t : Table) (a b : String)
    (hI : ∀ p ∈ t, p.2 ≠ ([] : List String)) :
    ∀ p ∈ tableAppend t a b, p.2 ≠ ([] : List String) := by
  induction t with
  | nil =>
    intro p hp
    simp only [tableAppend, List.mem_singleton] at hp
    subst hp
    simp
  | cons q rest ih =>
    obtain ⟨k', vs⟩ := q
    intro p hp
    by_cases hk : k' = a
    · rw [show tableAppend ((k', vs) :: rest) a b = (k', vs ++ [b]) :: rest by
        simp [tableAppend, hk]] at hp
      rcases List.mem_cons.mp hp with rfl | hmem
      · simp
      · exact hI p (List.mem_cons_of_mem _ hmem)
    · rw [show tableAppend ((k', vs) :: rest) a b = (k', vs) :: tableAppend rest a b by
        simp [tableAppend, hk]] at hp
      rcases List.mem_cons.mp hp with rfl | hmem
      · exact hI _ (List.mem_cons_self _ _)
      · exact ih (fun q hq => hI q (List.mem_cons_of_mem _ hq)) p hmem

theorem addPairs_buckets_ne (toks : List String) :
    ∀ t, (∀ p ∈ t, p.2 ≠ ([] : List String)) →
      ∀ p ∈ addPairs t toks, p.2 ≠ ([] : List String) := by
  induction toks with
  | nil => intro t hI; exact hI
  | cons a rest ih =>
    cases rest with
    | nil => intro t hI; exact hI
    | cons b rest' =>
      intro t hI
      exact ih (tableAppend t a b) (tableAppend_buckets_ne t a b hI)

theorem buildTable_buckets_ne (messages : List String) :
    ∀ p ∈ buildTable messages, p.2 ≠ ([] : List String) := by
  suffices hgen : ∀ (msgs : List String) (t : Table),
      (∀ p ∈ t, p.2 ≠ ([] : List String)) →
      ∀ p ∈ msgs.foldl addMessage t, p.2 ≠ ([] : List String) by
    exact hgen messages [] (by intro p hp; cases hp)
  intro msgs
  induction msgs with
  | nil => intro t hI; exact hI
  | cons m rest ih =>
    intro t hI
    rw [List.foldl_cons]
    refine ih (addMessage t m) ?_
    unfold addMessage
    by_cases hlen : (tokenize_text m).length < 2
    · rw [if_pos hlen]; exact hI
    · rw [if_neg hlen]; exact addPairs_buckets_ne (tokenize_text m) t hI

/-- Claim C9: every key of a freshly built transition table has at least one
successor in its bucket, and the generation-time walk (whose defaultdict
subscripts are all membership-guarded) returns the table unchanged, so no
read introduces a key with an empty bucket. -/
theorem rebuild_buckets_nonempty (messages : List String) (mn mx fuel len : Nat)
    (cur : String) (words : List String) (rng : List Nat) :
    (∀ k vs, (k, vs) ∈ buildTable messages → vs ≠ []) ∧
    (∀ w' t' len' reason rng',
      walkLoop mn mx fuel (buildTable messages) cur words len rng =
        some (w', t', len', reason, rng') → t' = buildTable messages) := by
  constructor
  · intro k vs hmem
    exact buildTable_buckets_ne messages (k, vs) hmem
  · intro w' t' len' reason rng' h
    exact (walkLoop_spec mn mx fuel _ cur words len rng w' t' len' reason rng' h).1

/-- Witness for C9 at a concrete corpus and a concrete finished walk. -/
theorem rebuild_buckets_nonempty_witness :
    (["bb"] : List String) ≠ [] ∧ buildTable ["aa bb"] = buildTable ["aa bb"] :=
  ⟨(rebuild_buckets_nonempty ["aa bb"] 8 20 3 1 "aa" ["Aa"] [0]).1 "aa" ["bb"] (by decide),
   (rebuild_buckets_nonempty ["aa bb"] 8 20 3 1 "aa" ["Aa"] [0]).2 ["Aa", "bb"]
     (buildTable ["aa bb"]) 2 .deadEnd [] (by decide)⟩

/-!
Character-level lemmas for capitalization, and the last-word transfer lemma
used by claim C1.
-/

theorem charToNatOfNat (n : Nat) (h : n < 0xd800) : (Char.ofNat n).toNat = n := by
  have hv : n.isValidChar := Or.inl h
  simp [Char.ofNat, hv, Char.ofNatAux, Char.toNat, UInt32.toNat]

theorem string_ne_empty_iff (s : String) : s ≠ "" ↔ s.data ≠ [] := by
  have hdata : ("" : String).data = [] := rfl
  constructor
  · intro h hd
    exact h (String.ext (by rw [hd, hdata]))
  · intro h hs
    rw [hs, hdata] at h
    exact h rfl

theorem pyLower_pyUpper (c : Char) : pyLowerChar (pyUpperChar c) = pyLowerChar c := by
  unfold pyUpperChar
  by_cases h1 : 97 ≤ c.toNat ∧ c.toNat ≤ 122
  · rw [if_pos h1]
    obtain ⟨h1a, h1b⟩ := h1
    have ht : (Char.ofNat (c.toNat - 32)).toNat = c.toNat - 32 := charToNatOfNat _ (by omega)
    unfold pyLowerChar
    rw [ht]
    rw [if_pos (show 65 ≤ c.toNat - 32 ∧ c.toNat - 32 ≤ 90 by omega)]
    rw [if_neg (show ¬ (65 ≤ c.toNat ∧ c.toNat ≤ 90) by omega)]
    rw [if_neg (show ¬ (0x410 ≤ c.toNat ∧ c.toNat ≤ 0x42F) by omega)]
    rw [if_neg (show ¬ c.toNat = 0x401 by omega)]
    rw [show c.toNat - 32 + 32 = c.toNat by omega, Char.ofNat_toNat]
  · rw [if_neg h1]
    by_cases h2 : 0x430 ≤ c.toNat ∧ c.toNat ≤ 0x44F
    · rw [if_pos h2]
      obtain ⟨h2a, h2b⟩ := h2
      have ht : (Char.ofNat (c.toNat - 32)).toNat = c.toNat - 32 := charToNatOfNat _ (by omega)
      unfold pyLowerChar
      rw [ht]
      rw [if_neg (show ¬ (65 ≤ c.toNat - 32 ∧ c.toNat - 32 ≤ 90) by omega)]
      rw [if_pos (show 0x410 ≤ c.toNat - 32 ∧ c.toNat - 32 ≤ 0x42F by omega)]
      rw [if_neg (show ¬ (65 ≤ c.toNat ∧ c.toNat ≤ 90) by omega)]
      rw [if_neg (show ¬ (0x410 ≤ c.toNat ∧ c.toNat ≤ 0x42F) by omega)]
      rw [if_neg (show ¬ c.toNat = 0x401 by omega)]
      rw [show c.toNat - 32 + 32 = c.toNat by omega, Char.ofNat_toNat]
    · rw [if_neg h2]
      by_cases h3 : c.toNat = 0x451
      · rw [if_pos h3]
        have ht : (Char.ofNat 0x401).toNat = 0x401 := charToNatOfNat _ (by omega)
        unfold pyLowerChar
        rw [ht]
        rw [if_neg (show ¬ (65 ≤ (0x401 : Nat) ∧ (0x401 : Nat) ≤ 90) by omega)]
        rw [if_neg (show ¬ ((0x410 : Nat) ≤ 0x401 ∧ (0x401 : Nat) ≤ 0x42F) by omega)]
        rw [if_pos (show (0x401 : Nat) = 0x401 from rfl)]
        rw [if_neg (show ¬ (65 ≤ c.toNat ∧ c.toNat ≤ 90) by omega)]
        rw [if_neg (show ¬ (0x410 ≤ c.toNat ∧ c.toNat ≤ 0x42F) by omega)]
        rw [if_neg (show ¬ c.toNat = 0x401 by omega)]
        rw [show (0x451 : Nat) = c.toNat from h3.symm, Char.ofNat_toNat]
      · rw [if_neg h3]

theorem pyUpper_of_ws (c : Char) (h : isWsChar c = true) : pyUpperChar c = c := by
  have hb : c.toNat ≤ 32 := by
    have h' := h
    simp only [isWsChar, Bool.or_eq_true, decide_eq_true_eq] at h'
    omega
  unfold pyUpperChar
  rw [if_neg (by omega), if_neg (by omega), if_neg (by omega)]

theorem pyUpper_not_ws (c : Char) (h : isWsChar c = false) :
    isWsChar (pyUpperChar c) = false := by
  unfold pyUpperChar
  by_cases h1 : 97 ≤ c.toNat ∧ c.toNat ≤ 122
  · rw [if_pos h1]
    obtain ⟨h1a, h1b⟩ := h1
    have ht : (Char.ofNat (c.toNat - 32)).toNat = c.toNat - 32 := charToNatOfNat _ (by omega)
    simp only [isWsChar, ht, Bool.or_eq_false_iff, decide_eq_false_iff_not]
    omega
  · rw [if_neg h1]
    by_cases h2 : 0x430 ≤ c.toNat ∧ c.toNat ≤ 0x44F
    · rw [if_pos h2]
      obtain ⟨h2a, h2b⟩ := h2
      have ht : (Char.ofNat (c.toNat - 32)).toNat = c.toNat - 32 := charToNatOfNat _ (by omega)
      simp only [isWsChar, ht, Bool.or_eq_false_iff, decide_eq_false_iff_not]
      omega
    · rw [if_neg h2]
      by_cases h3 : c.toNat = 0x451
      · rw [if_pos h3]
        have ht : (Char.ofNat 0x401).toNat = 0x401 := charToNatOfNat _ (by omega)
        simp only [isWsChar, ht, Bool.or_eq_false_iff, decide_eq_false_iff_not]
        omega
      · rw [if_neg h3]
        exact h

theorem splitWsAux_headWord (x y : Char) : ∀ (rest wrev : List Char),
    ∃ t ws, splitWsAux rest (wrev ++ [x]) = (x :: t) :: ws ∧
      splitWsAux rest (wrev ++ [y]) = (y :: t) :: ws := by
  intro rest
  induction rest with
  | nil =>
    intro wrev
    refine ⟨wrev.reverse, [], ?_, ?_⟩
    · simp [splitWsAux, List.reverse_append]
    · simp [splitWsAux, List.reverse_append]
  | cons c r ih =>
    intro wrev
    by_cases hc : isWsChar c
    · refine ⟨wrev.reverse, splitWsAux r [], ?_, ?_⟩
      · simp [splitWsAux, hc, List.reverse_append]
      · simp [splitWsAux, hc, List.reverse_append]
    · obtain ⟨t, ws, h1, h2⟩ := ih (c :: wrev)
      refine ⟨t, ws, ?_, ?_⟩
      · rw [show splitWsAux (c :: r) (wrev ++ [x]) = splitWsAux r (c :: (wrev ++ [x])) by
          simp [splitWsAux, hc]]
        exact h1
      · rw [show splitWsAux (c :: r) (wrev ++ [y]) = splitWsAux r (c :: (wrev ++ [y])) by
          simp [splitWsAux, hc]]
        exact h2

theorem capFirst_lastWord (s : String) (hne : pySplit s ≠ []) :
    pySplit (capitalize_first_letter s) ≠ [] ∧
      lastWordCheck ((pySplit (capitalize_first_letter s)).getLastD "") =
        lastWordCheck ((pySplit s).getLastD "") := by
  cases hs : s.data with
  | nil =>
    have hempty : pySplit s = [] := by
      unfold pySplit
      rw [hs]
      rfl
    exact absurd hempty hne
  | cons c rest =>
    have hcap : (capitalize_first_letter s).data = pyUpperChar c :: rest := by
      unfold capitalize_first_letter
      rw [hs]
    by_cases hws : isWsChar c = true
    · rw [pyUpper_of_ws c hws] at hcap
      have heq : pySplit (capitalize_first_letter s) = pySplit s := by
        unfold pySplit
        rw [hcap, hs]
      rw [heq]
      exact ⟨hne, rfl⟩
    · replace hws : isWsChar c = false := by
        cases hx : isWsChar c
        · rfl
        · exact absurd hx hws
      have hwsu : isWsChar (pyUpperChar c) = false := pyUpper_not_ws c hws
      obtain ⟨t, ws, h1, h2⟩ := splitWsAux_headWord (pyUpperChar c) c rest []
      simp only [List.nil_append] at h1 h2
      have hsplit_c : pySplit s = (⟨c :: t⟩ : String) :: ws.map String.mk := by
        unfold pySplit
        rw [hs]
        rw [show splitWsAux (c :: rest) [] = splitWsAux rest [c] by
          simp [splitWsAux, hws]]
        rw [h2, List.map_cons]
      have hsplit_u : pySplit (capitalize_first_letter s) =
          (⟨pyUpperChar c :: t⟩ : String) :: ws.map String.mk := by
        unfold pySplit
        rw [hcap]
        rw [show splitWsAux (pyUpperChar c :: rest) [] = splitWsAux rest [pyUpperChar c] by
          simp [splitWsAux, hwsu]]
        rw [h1, List.map_cons]
      rw [hsplit_c, hsplit_u]
      refine ⟨by simp, ?_⟩
      cases hws2 : ws with
      | nil =>
        simp only [List.map_nil, List.getLastD_cons, List.getLastD_nil]
        unfold lastWordCheck pyLower
        show (⟨((List.map pyLowerChar (pyUpperChar c :: t)).reverse.dropWhile _).reverse⟩ :
            String) = ⟨((List.map pyLowerChar (c :: t)).reverse.dropWhile _).reverse⟩
        rw [List.map_cons, List.map_cons, pyLower_pyUpper]
      | cons w0 ws' =>
        simp only [List.map_cons, List.getLastD_cons]

/-!
Markovify acceptance: claim C1.
-/

theorem mkvLoop_accept (t : Table) (ng : NgramModel) : ∀ (n fuel : Nat) (rng : List Nat)
    (out : String) (rng2 : List Nat),
    mkvLoop t ng n fuel rng = some (out, true, rng2) →
    ∃ s, out = capitalize_first_letter s ∧ pySplit s ≠ [] ∧
      ¬ forbidden_endings.contains (lastWordCheck ((pySplit s).getLastD "")) := by
  intro n
  induction n with
  | zero =>
    intro fuel rng out rng2 h
    simp only [mkvLoop] at h
    cases hc : generate_sentence_custom t 8 20 false fuel rng with
    | none => rw [hc] at h; cases h
    | some r =>
      rw [hc] at h
      simp only [Option.map_some', Option.some.injEq, Prod.mk.injEq] at h
      exact absurd h.2.1 (by simp)
  | succ n ih =>
    intro fuel rng out rng2 h
    simp only [mkvLoop] at h
    cases ho : ng.make_sentence (rng.headD 0) with
    | none =>
      rw [ho] at h
      exact ih _ _ _ _ h
    | some s =>
      rw [ho] at h
      dsimp only at h
      by_cases hse : s = ""
      · rw [if_pos hse] at h
        exact ih _ _ _ _ h
      · rw [if_neg hse] at h
        by_cases hacc : pySplit s ≠ [] ∧
            ¬ forbidden_endings.contains (lastWordCheck ((pySplit s).getLastD ""))
        · rw [if_pos hacc] at h
          simp only [Option.some.injEq, Prod.mk.injEq] at h
          exact ⟨s, h.1.symm, hacc.1, hacc.2⟩
        · rw [if_neg hacc] at h
          exact ih _ _ _ _ h

/-- Claim C1 amended: every sentence the n-gram strategy ACCEPTS from its
attempt loop (as opposed to its fallbacks and to the transition-table
strategy) satisfies the forbidden-endings invariant — its last word, after
lower-casing and stripping trailing terminators, is not a forbidden ending.
The transition-table strategy does not re-check endings, so sentences of
`generate_sentence` produced by that strategy can violate the invariant (see
the counterexample). -/
theorem ngram_accepted_no_forbidden_ending (st : LiveModel) (attempts fuel : Nat)
    (rng : List Nat) (out : String) (rng2 : List Nat)
    (h : generate_sentence_markovify st attempts fuel rng = some (out, true, rng2)) :
    pySplit out ≠ [] ∧
      ¬ forbidden_endings.contains (lastWordCheck ((pySplit out).getLastD "")) := by
  unfold generate_sentence_markovify at h
  cases hm : st.markovify_model with
  | none =>
    rw [hm] at h
    cases hc : generate_sentence_custom st.markov_model 8 20 false fuel rng with
    | none => rw [hc] at h; cases h
    | some r =>
      rw [hc] at h
      simp only [Option.map_some', Option.some.injEq, Prod.mk.injEq] at h
      exact absurd h.2.1 (by simp)
  | some ng =>
    rw [hm] at h
    obtain ⟨s, rfl, hne, hforb⟩ := mkvLoop_accept st.markov_model ng attempts fuel rng out rng2 h
    obtain ⟨h1, h2⟩ := capFirst_lastWord s hne
    refine ⟨h1, ?_⟩
    rw [h2]
    exact hforb

/-- Witness for the amended C1 theorem at a concrete accepting run. -/
theorem ngram_accepted_no_forbidden_ending_witness :
    pySplit "Дом стоит." ≠ [] ∧
      ¬ forbidden_endings.contains (lastWordCheck ((pySplit "Дом стоит.").getLastD "")) :=
  ngram_accepted_no_forbidden_ending ⟨[], some shortOkNgram⟩ 15 100 [0] "Дом стоит." []
    (by decide)

/-- Claim C1 counterexample: a terminating run of `generate_sentence` (via the
transition-table strategy, over a 51-key table) returns a sentence whose last
word, stripped and case-folded, IS in the Forbidden-Endings Set. -/
theorem sentence_forbidden_ending_cex :
    generate_sentence ⟨endForbiddenTable, none⟩ 8 20 false false false 100
        [0, 0, 0, 0, 0, 0] =
      some ("B0 и.", [.custom, .custom, .custom], []) ∧
    forbidden_endings.contains (lastWordCheck ((pySplit "B0 и.").getLastD "")) = true := by
  exact ⟨by decide, by decide⟩

/-!
Non-emptiness of the generation strategies and the dispatcher structure:
claims C7 and C8.
-/

theorem mkvLoop_ne (t : Table) (ng : NgramModel) : ∀ (n fuel : Nat) (rng : List Nat)
    (out : String) (flag : Bool) (rng2 : List Nat),
    mkvLoop t ng n fuel rng = some (out, flag, rng2) → out.data ≠ [] := by
  intro n
  induction n with
  | zero =>
    intro fuel rng out flag rng2 h
    simp only [mkvLoop] at h
    cases hc : generate_sentence_custom t 8 20 false fuel rng with
    | none => rw [hc] at h; cases h
    | some r =>
      rw [hc] at h
      simp only [Option.map_some', Option.some.injEq, Prod.mk.injEq] at h
      rw [← h.1]
      exact (custom_spec t 8 20 false fuel rng r hc).1
  | succ n ih =>
    intro fuel rng out flag rng2 h
    simp only [mkvLoop] at h
    cases ho : ng.make_sentence (rng.headD 0) with
    | none =>
      rw [ho] at h
      exact ih _ _ _ _ _ h
    | some s =>
      rw [ho] at h
      dsimp only at h
      by_cases hse : s = ""
      · rw [if_pos hse] at h
        exact ih _ _ _ _ _ h
      · rw [if_neg hse] at h
        by_cases hacc : pySplit s ≠ [] ∧
            ¬ forbidden_endings.contains (lastWordCheck ((pySplit s).getLastD ""))
        · rw [if_pos hacc] at h
          simp only [Option.some.injEq, Prod.mk.injEq] at h
          rw [← h.1]
          exact capitalize_first_letter_ne s ((string_ne_empty_iff s).mp hse)
        · rw [if_neg hacc] at h
          exact ih _ _ _ _ _ h

theorem generate_sentence_markovify_ne (st : LiveModel) (attempts fuel : Nat)
    (rng : List Nat) (out : String) (flag : Bool) (rng2 : List Nat)
    (h : generate_sentence_markovify st attempts fuel rng = some (out, flag, rng2)) :
    out.data ≠ [] := by
  unfold generate_sentence_markovify at h
  cases hm : st.markovify_model with
  | none =>
    rw [hm] at h
    cases hc : generate_sentence_custom st.markov_model 8 20 false fuel rng with
    | none => rw [hc] at h; cases h
    | some r =>
      rw [hc] at h
      simp only [Option.map_some', Option.some.injEq, Prod.mk.injEq] at h
      rw [← h.1]
      exact (custom_spec _ 8 20 false fuel rng r hc).1
  | some ng =>
    rw [hm] at h
    exact mkvLoop_ne st.markov_model ng attempts fuel rng out flag rng2 h

theorem runStrategy_ne (st : LiveModel) (mn mx : Nat) (strat : Strategy) (fuel : Nat)
    (rng : List Nat) (s : String) (rng2 : List Nat)
    (h : runStrategy st mn mx strat fuel rng = some (s, rng2)) : s.data ≠ [] := by
  cases strat with
  | markovify =>
    unfold runStrategy at h
    cases hm : generate_sentence_markovify st 15 fuel rng with
    | none => rw [hm] at h; cases h
    | some p =>
      obtain ⟨out, flag, rng3⟩ := p
      rw [hm] at h
      simp only [Option.map_some', Option.some.injEq, Prod.mk.injEq] at h
      rw [← h.1]
      exact generate_sentence_markovify_ne st 15 fuel rng out flag rng3 hm
  | custom =>
    unfold runStrategy at h
    cases hc : generate_sentence_custom st.markov_model mn mx false fuel rng with
    | none => rw [hc] at h; cases h
    | some r =>
      rw [hc] at h
      simp only [Option.map_some', Option.some.injEq, Prod.mk.injEq] at h
      rw [← h.1]
      exact (custom_spec _ mn mx false fuel rng r hc).1

/-- Structure of every terminating dispatcher run with no internal exception:
the result is non-empty; the first strategy is the n-gram one exactly when the
0.7-coin came up and an n-gram model is installed; any second attempt uses the
strategy picked by the fresh 0.5-coin (possibly the same as the first); any
third attempt uses the transition-table strategy; at most three attempts. -/
theorem dispatcher_spec (st : LiveModel) (mn mx : Nat) (c1 c2 : Bool) (fuel : Nat)
    (rng : List Nat) (s : String) (tr : List Strategy) (rng2 : List Nat)
    (h : generate_sentence st mn mx c1 c2 false fuel rng = some (s, tr, rng2)) :
    s.data ≠ [] ∧
    tr.get? 0 = some (if c1 && st.markovify_model.isSome then Strategy.markovify
      else Strategy.custom) ∧
    (∀ t2, tr.get? 1 = some t2 → t2 = (if c2 then Strategy.markovify else Strategy.custom)) ∧
    (∀ t3, tr.get? 2 = some t3 → t3 = Strategy.custom) ∧
    tr.length ≤ 3 := by
  unfold generate_sentence at h
  rw [if_neg (by simp)] at h
  dsimp only at h
  set strat1 := if c1 && st.markovify_model.isSome then Strategy.markovify
    else Strategy.custom with hs1
  cases hr1 : runStrategy st mn mx strat1 fuel rng with
  | none => rw [hr1] at h; cases h
  | some p1 =>
    obtain ⟨s1, rng1⟩ := p1
    rw [hr1] at h
    dsimp only at h
    by_cases hlen1 : (pySplit s1).length < mn
    · rw [if_pos hlen1] at h
      set strat2 := if c2 then Strategy.markovify else Strategy.custom with hs2
      cases hr2 : runStrategy st mn mx strat2 fuel rng1 with
      | none => rw [hr2] at h; cases h
      | some p2 =>
        obtain ⟨s2, rng2'⟩ := p2
        rw [hr2] at h
        dsimp only at h
        by_cases hlen2 : (pySplit s2).length < mn
        · rw [if_pos hlen2] at h
          cases hr3 : generate_sentence_custom st.markov_model mn 30 false fuel rng2' with
          | none => rw [hr3] at h; cases h
          | some r =>
            rw [hr3] at h
            simp only [Option.some.injEq, Prod.mk.injEq] at h
            obtain ⟨hsr, htr, _⟩ := h
            rw [← htr, ← hsr]
            refine ⟨(custom_spec _ mn 30 false fuel rng2' r hr3).1, rfl, ?_, ?_, by simp⟩
            · intro t2 ht2
              exact (Option.some.inj ht2).symm
            · intro t3 ht3
              exact (Option.some.inj ht3).symm
        · rw [if_neg hlen2] at h
          simp only [Option.some.injEq, Prod.mk.injEq] at h
          obtain ⟨hsr, htr, _⟩ := h
          rw [← htr, ← hsr]
          refine ⟨runStrategy_ne st mn mx strat2 fuel rng1 s2 rng2' hr2, rfl, ?_, ?_, by simp⟩
          · intro t2 ht2
            exact (Option.some.inj ht2).symm
          · intro t3 ht3
            cases ht3
    · rw [if_neg hlen1] at h
      simp only [Option.some.injEq, Prod.mk.injEq] at h
      obtain ⟨hsr, htr, _⟩ := h
      rw [← htr, ← hsr]
      refine ⟨runStrategy_ne st mn mx strat1 fuel rng s1 rng1 hr1, rfl, ?_, ?_, by simp⟩
      · intro t2 ht2
        cases ht2
      · intro t3 ht3
        cases ht3

/-- Claim C7 counterexample: a run of `generate_sentence` whose first, short
result came from the n-gram strategy retries with the n-gram strategy AGAIN
(the retry is a fresh coin flip, not "the other strategy"), refuting the claim
as stated. -/
theorem dispatcher_retry_same_strategy_cex : ¬ claimC7retry := by
  intro h
  exact h ⟨[], some shortOkNgram⟩ 8 20 true true 100 [0, 0, 0, 0] no_data_sentence
    [.markovify, .markovify, .custom] [0, 0] (by decide) .markovify .markovify
    (by decide) (by decide) rfl

/-- Claim C7 amended: if the first result is shorter than `min_words`, the
dispatcher retries once with a strategy chosen by a fresh fair coin flip
(n-gram if the coin is below 0.5, else transition-table) — which may coincide
with the first strategy; if the retry is still short it invokes the
transition-table strategy with the enlarged max-word budget of 30; and every
terminating run returns non-empty text.  (Unconditional termination cannot be
guaranteed: see the non-termination counterexample of claim C8.) -/
theorem dispatcher_retry_coinflip (st : LiveModel) (mn mx : Nat) (c1 c2 : Bool)
    (fuel : Nat) (rng : List Nat) (s : String) (tr : List Strategy) (rng2 : List Nat)
    (h : generate_sentence st mn mx c1 c2 false fuel rng = some (s, tr, rng2)) :
    s ≠ "" ∧
    tr.get? 0 = some (if c1 && st.markovify_model.isSome then Strategy.markovify
      else Strategy.custom) ∧
    (∀ t2, tr.get? 1 = some t2 → t2 = (if c2 then Strategy.markovify else Strategy.custom)) ∧
    (∀ t3, tr.get? 2 = some t3 → t3 = Strategy.custom) ∧
    tr.length ≤ 3 := by
  obtain ⟨hne, h0, h1, h2, h3⟩ := dispatcher_spec st mn mx c1 c2 fuel rng s tr rng2 h
  exact ⟨(string_ne_empty_iff s).mpr hne, h0, h1, h2, h3⟩

/-- Witness for the amended C7 theorem at a concrete run. -/
theorem dispatcher_retry_coinflip_witness :
    no_data_sentence ≠ "" ∧
    ([Strategy.markovify, .markovify, .custom].get? 0 = some Strategy.markovify) ∧
    (∀ t2, [Strategy.markovify, .markovify, .custom].get? 1 = some t2 →
      t2 = Strategy.markovify) ∧
    (∀ t3, [Strategy.markovify, .markovify, .custom].get? 2 = some t3 →
      t3 = Strategy.custom) ∧
    ([Strategy.markovify, Strategy.markovify, Strategy.custom]).length ≤ 3 :=
  dispatcher_retry_coinflip ⟨[], some shortOkNgram⟩ 8 20 true true 100 [0, 0, 0, 0]
    no_data_sentence [.markovify, .markovify, .custom] [0, 0] (by decide)

/-!
Claim C8: non-termination counterexample and the amended guarantee.
-/

theorem choice_singleton (w : String) (rng : List Nat) : choice [w] rng = (w, rng.tail) := by
  simp [choice, Nat.mod_one]

theorem commaWalk_none : ∀ (fuel : Nat) (words : List String) (rng : List Nat),
    walkLoop 8 20 fuel commaCycleTable "," words 1 rng = none := by
  intro fuel
  induction fuel with
  | zero =>
    intro words rng
    rw [walkLoop_zero, if_neg (by omega)]
  | succ fuel ih =>
    intro words rng
    have htg : tget commaCycleTable "," = some [","] := by decide
    rw [walkLoop_succ, if_neg (show ¬ (20 ≤ 1) by omega), htg]
    dsimp only
    rw [dictGet_present htg]
    dsimp only
    rw [if_neg (show ¬ ([","] : List String) = [] by decide)]
    rw [dictGet_present htg]
    dsimp only
    rw [choice_singleton]
    dsimp only
    rw [if_neg (show ¬ (isTerminalTok "," = true ∧
      8 ≤ (if pyStrIsAlpha "," = true then 1 + 1 else 1)) by decide)]
    exact ih (words ++ [","]) rng.tail

theorem commaCycle_custom_none : ∀ fuel,
    generate_sentence_custom commaCycleTable 8 20 false fuel [0, 0] = none := by
  intro fuel
  cases fuel with
  | zero => rfl
  | succ f =>
    have hstep : generate_sentence_custom commaCycleTable 8 20 false (f + 1) [0, 0] =
        match walkLoop 8 20 f commaCycleTable "," ["Aa", ","] 1 ([] : List Nat) with
        | none => (none : Option CustomResult)
        | some (words, t', len, reason, rng'') =>
          some ⟨fixPunct (joinWords
              (if isTerminalTok (words.getLastD "") then words else words ++ ["."])),
            t', some (len, reason), rng''⟩ := rfl
    rw [hstep, commaWalk_none f ["Aa", ","] []]

/-- Claim C8 counterexample: the claim as stated is FALSE — there is an input
(a 51-key table containing the punctuation cycle `","` to `","`, reachable
because only alphabetic tokens advance the length counter) on which the
transition-table generator never returns: no amount of fuel makes the
embedded run finish. -/
theorem generation_nontermination_cex : ¬ claimC8 := by
  intro h
  obtain ⟨fuel, r, hr, _⟩ := h.1 commaCycleTable 8 20 false [0, 0]
  rw [commaCycle_custom_none fuel] at hr
  cases hr

/-- Claim C8 amended: on every run that terminates, both
`generate_sentence_custom` and `generate_sentence` return non-empty text, and
when an internal exception occurs the fixed deterministic fallback sentence is
returned; no exception escapes to the caller (the embedding of each function
is total on terminating runs). -/
theorem generation_nonempty_on_return (t : Table) (st : LiveModel) (mn mx : Nat)
    (exc c1 c2 : Bool) (fuel fuel2 : Nat) (rng rng2 : List Nat) :
    (∀ r, generate_sentence_custom t mn mx exc fuel rng = some r →
      r.sentence ≠ "" ∧ (exc = true → r.sentence = custom_error_sentence)) ∧
    (∀ s tr rng3, generate_sentence st mn mx c1 c2 exc fuel2 rng2 = some (s, tr, rng3) →
      s ≠ "" ∧ (exc = true → s = dispatcher_error_sentence)) := by
  constructor
  · intro r hr
    obtain ⟨hne, _, hexc, _, _⟩ := custom_spec t mn mx exc fuel rng r hr
    exact ⟨(string_ne_empty_iff _).mpr hne, hexc⟩
  · intro s tr rng3 hs
    by_cases hexc : exc = true
    · subst hexc
      unfold generate_sentence at hs
      rw [if_pos rfl] at hs
      simp only [Option.some.injEq, Prod.mk.injEq] at hs
      refine ⟨?_, fun _ => hs.1.symm⟩
      rw [← hs.1]
      decide
    · replace hexc : exc = false := by
        cases exc
        · rfl
        · exact absurd rfl hexc
      subst hexc
      obtain ⟨hne, _, _, _, _⟩ := dispatcher_spec st mn mx c1 c2 fuel2 rng2 s tr rng3 hs
      exact ⟨(string_ne_empty_iff _).mpr hne, fun he => absurd he (by simp)⟩

/-- Witness for the amended C8 theorem at concrete runs (the empty-model path
and the exception path). -/
theorem generation_nonempty_on_return_witness :
    no_data_sentence ≠ "" ∧ dispatcher_error_sentence ≠ "" :=
  ⟨((generation_nonempty_on_return [] ⟨[], none⟩ 8 20 false false false 5 5 [0] [0]).1
      ⟨no_data_sentence, [], none, [0]⟩ (by decide)).1,
   ((generation_nonempty_on_return [] ⟨[], none⟩ 8 20 true false false 5 5 [0] [0]).2
      dispatcher_error_sentence [] [0] (by decide)).1⟩

end TgBot
